import Mathlib

/-!
Shallow embedding of the papyrological citation engine of the Agora
repository: the modules src/image/src/GTE/clean_text.py and
src/image/src/GTE/GTE.py.  Pure Python functions become Lean functions;
a Python call that may raise an uncaught exception is modelled with the
result type PyResult, whose constructor exn marks the uncaught exception.
Machine-level concerns do not arise: the code manipulates strings and
small integers only.
-/

/-- Result of a Python call: a normal return value, or an uncaught
exception propagating out of the call. -/
inductive PyResult (α : Type) where
  | ok (a : α) : PyResult α
  | exn : PyResult α
deriving DecidableEq

/-- Whitespace as recognized by Python str.strip and str.split with no
arguments (ASCII fragment). -/
def isPyWs (c : Char) : Bool :=
  c == ' ' || c == '\t' || c == '\n' || c == '\r' || c == '\x0b' || c == '\x0c'

/-- Python str.strip on a character list. -/
def pyStripL (l : List Char) : List Char :=
  ((l.dropWhile isPyWs).reverse.dropWhile isPyWs).reverse

/-- Python str.strip. -/
def pyStrip (s : String) : String := String.mk (pyStripL s.data)

/-- Python str.lower (ASCII fragment, all data in the engine is ASCII). -/
def pyLower (s : String) : String := String.mk (s.data.map Char.toLower)

/-- Python s.startswith(pre). -/
def pyStartsWith (s pre : String) : Bool := pre.data.isPrefixOf s.data

/-- Python s.endswith(suf). -/
def pyEndsWith (s suf : String) : Bool := suf.data.isSuffixOf s.data

/-- Python s.split(sep) for a one-character separator: splits at every
occurrence and keeps empty pieces.  Always returns a nonempty list. -/
def splitOnChar (c : Char) : List Char → List (List Char)
  | [] => [[]]
  | x :: xs =>
    match splitOnChar c xs with
    | [] => [[]]
    | h :: t => if x = c then [] :: h :: t else (x :: h) :: t

/-- Python s.split(sep) at the string level. -/
def pySplitChar (c : Char) (s : String) : List String :=
  (splitOnChar c s.data).map String.mk

/-- Python s.split(sep)[0]: the segment before the first separator. -/
def predot (s : String) : String :=
  String.mk ((splitOnChar '.' s.data).headD [])

/-- Worker for Python str.split with no arguments: whitespace-separated
words, empty words dropped. -/
def pyWordsAux : List Char → List Char → List (List Char)
  | [], cur => if cur.isEmpty then [] else [cur]
  | c :: cs, cur =>
    if isPyWs c then
      if cur.isEmpty then pyWordsAux cs [] else cur :: pyWordsAux cs []
    else pyWordsAux cs (cur ++ [c])

/-- The idiom " ".join(s.split()) used by expand: collapse every
whitespace run to a single space and trim the ends. -/
def collapseWs (s : String) : String :=
  String.intercalate " " ((pyWordsAux s.data []).map String.mk)

/-! ## The roman package

roman.fromRoman(s) first validates s against the anchored pattern
M{0,4}(CM|CD|D?C{0,3})(XC|XL|L?X{0,3})(IX|IV|V?I{0,3}) (the empty string
is rejected first), then sums the numeral values.  The embedding parses
the four groups left to right; since no group can consume a character
that belongs to an earlier group, this deterministic parse agrees with
the backtracking regular-expression match. -/

/-- Count of leading copies of c, together with the rest of the list. -/
def takeCount (c : Char) : List Char → Nat × List Char
  | [] => (0, [])
  | x :: xs =>
    if x = c then
      let p := takeCount c xs
      (p.1 + 1, p.2)
    else (0, x :: xs)

/-- Hundreds group CM | CD | D?C{0,3} of the roman-numeral pattern. -/
def romanHundreds : List Char → Option (Nat × List Char)
  | 'C' :: 'M' :: rest => some (900, rest)
  | 'C' :: 'D' :: rest => some (400, rest)
  | 'D' :: rest =>
    let p := takeCount 'C' rest
    if p.1 ≤ 3 then some (500 + 100 * p.1, p.2) else none
  | l =>
    let p := takeCount 'C' l
    if p.1 ≤ 3 then some (100 * p.1, p.2) else none

/-- Tens group XC | XL | L?X{0,3} of the roman-numeral pattern. -/
def romanTens : List Char → Option (Nat × List Char)
  | 'X' :: 'C' :: rest => some (90, rest)
  | 'X' :: 'L' :: rest => some (40, rest)
  | 'L' :: rest =>
    let p := takeCount 'X' rest
    if p.1 ≤ 3 then some (50 + 10 * p.1, p.2) else none
  | l =>
    let p := takeCount 'X' l
    if p.1 ≤ 3 then some (10 * p.1, p.2) else none

/-- Units group IX | IV | V?I{0,3} of the roman-numeral pattern. -/
def romanUnits : List Char → Option (Nat × List Char)
  | 'I' :: 'X' :: rest => some (9, rest)
  | 'I' :: 'V' :: rest => some (4, rest)
  | 'V' :: rest =>
    let p := takeCount 'I' rest
    if p.1 ≤ 3 then some (5 + p.1, p.2) else none
  | l =>
    let p := takeCount 'I' l
    if p.1 ≤ 3 then some (p.1, p.2) else none

/-- roman.fromRoman: some value on a valid numeral, none where the
Python function raises InvalidRomanNumeralError. -/
def fromRoman (s : String) : Option Nat :=
  let l := s.data
  if l.isEmpty then none
  else
    let m := takeCount 'M' l
    if m.1 > 4 then none
    else
      match romanHundreds m.2 with
      | none => none
      | some h =>
        match romanTens h.2 with
        | none => none
        | some t =>
          match romanUnits t.2 with
          | none => none
          | some u =>
            if u.2.isEmpty then some (1000 * m.1 + h.1 + t.1 + u.1) else none

namespace CleanText

/-- clean_text.is_roman_numeral: conversion succeeds without the
invalid-numeral error. -/
def is_roman_numeral (s : String) : Bool := (fromRoman s).isSome

/-- Worker for clean_text.smart_split.  State: remaining characters,
current part, bracket depth.  Faithful to the source, including the
Python operator precedence in the second branch: the condition reads
char == close-paren, or (char == close-bracket and depth > 0), so a
close-paren always decrements (the depth may go negative) while a
close-bracket at depth zero is an ordinary character. -/
def ssCT (delim : Char) : List Char → List Char → Int → List (List Char)
  | [], cur, _ => if cur.isEmpty then [] else [cur]
  | c :: cs, cur, d =>
    if c = '(' ∨ c = '[' then ssCT delim cs (cur ++ [c]) (d + 1)
    else if c = ')' ∨ (c = ']' ∧ d > 0) then ssCT delim cs (cur ++ [c]) (d - 1)
    else if c = delim ∧ d = 0 then
      if cur.isEmpty then ssCT delim cs [] d else cur :: ssCT delim cs [] d
    else ssCT delim cs (cur ++ [c]) d

/-- clean_text.smart_split(text, delimiter). -/
def smart_split (text : String) (delim : Char) : List String :=
  (ssCT delim text.data [] 0).map String.mk

/-- The bracket-popped token list used by expand: if the last token
starts with an open square bracket it is set aside. -/
def adjustedParts (parts : List String) : List String :=
  if pyStartsWith (parts.getLastD "") "[" then parts.dropLast else parts

/-- The uncertainty offset of expand: 1 if some token is the bare
question mark, else 0. -/
def uncertaintyOffset (parts : List String) : Nat :=
  if "?" ∈ parts then 1 else 0

/-- clean_text.expand(text, previous_collection, previous_volume,
previous_identifier).  Returns the collapsed clause and the updated
context; exn marks the uncaught IndexError raised by parts[-1] when the
split yields no tokens. -/
def expand (text pc pv pid : String) :
    PyResult (String × String × String × String) :=
  let parts0 := smart_split text ' '
  if parts0.isEmpty then .exn
  else
    let parts := adjustedParts parts0
    let offset := uncertaintyOffset parts
    if parts.length = 4 + offset then
      .ok (collapseWs text, parts.getD 0 "", parts.getD 1 "",
           predot (parts.getD 2 ""))
    else if parts.length = 3 + offset ∧ is_roman_numeral (parts.getD 0 "") then
      .ok (collapseWs (pc ++ " " ++ text), pc, parts.getD 0 "", pid)
    else if parts.length = 3 + offset then
      .ok (collapseWs text, parts.getD 0 "", pv, pid)
    else if parts.length = 2 + offset then
      if (splitOnChar '.' (parts.getD 0 "").data).length = 1 then
        .ok (collapseWs (pc ++ " " ++ pv ++ " " ++ pid ++ "." ++ text),
             pc, pv, pid)
      else
        .ok (collapseWs (pc ++ " " ++ pv ++ " " ++ text),
             pc, pv, predot (parts.getD 0 ""))
    else
      .ok (collapseWs (text ++ " Failed"), pc, pv, pid)

end CleanText

namespace GTE

/-- Worker for GTE.smart_split: like the clean_text splitter but with the
delimiter fixed to a space and only parentheses tracked; square brackets
are ordinary characters here. -/
def ssGTE : List Char → List Char → Int → List (List Char)
  | [], cur, _ => if cur.isEmpty then [] else [cur]
  | c :: cs, cur, d =>
    if c = '(' then ssGTE cs (cur ++ [c]) (d + 1)
    else if c = ')' then ssGTE cs (cur ++ [c]) (d - 1)
    else if c = ' ' ∧ d = 0 then
      if cur.isEmpty then ssGTE cs [] d else cur :: ssGTE cs [] d
    else ssGTE cs (cur ++ [c]) d

/-- GTE.smart_split(text). -/
def smart_split (text : String) : List String :=
  (ssGTE text.data [] 0).map String.mk

/-- The structured record built by GTE.process_extracted_text: the output
dictionary with keys collection, number, identifier, lines. -/
structure StructuredCitation where
  collection : String
  number : Nat
  identifier : String
  lines : String
deriving DecidableEq

/-- parts[0][:-1].lower() when parts[0] ends with a dot, else
parts[0].lower(). -/
def stripTrailingDotLower (s : String) : String :=
  if pyEndsWith s "." then pyLower (String.mk s.data.dropLast) else pyLower s

/-- GTE.process_extracted_text(input_text).  ok none models the Python
return value None (including the bare-except cases: an invalid roman
numeral at parts[1], or the IndexError at parts[1] or parts[2] inside the
try block); exn models the uncaught IndexError at parts[0] when the token
list is empty (its length 0 passes the evenness test and parts[0] is read
outside the try block).  The lines field of the result is never
reassigned and keeps its initial empty-string value. -/
def process_extracted_text (input_text : String) :
    PyResult (Option StructuredCitation) :=
  let parts := smart_split input_text
  if parts.length % 2 = 0 then
    match parts with
    | [] => .exn
    | p0 :: rest =>
      match rest with
      | [] => .ok none
      | p1 :: rest2 =>
        match fromRoman p1 with
        | none => .ok none
        | some v =>
          match rest2 with
          | [] => .ok none
          | p2 :: _ =>
            .ok (some { collection := stripTrailingDotLower p0, number := v,
                        identifier := predot p2, lines := "" })
  else .ok none

end GTE


namespace CleanText

/-!
## clean_text.extract: the range splitter

The regular expression is fixed: a dot, one or more digits, an optional
dash-range, any number of commas, then any number of repetitions of
optional whitespace plus a digit run with an optional dash-range.  Every
quantifier is greedy and no later component can reclaim characters from
an earlier one, so the backtracking search is equivalent to the
deterministic longest-prefix parse implemented here.  re.sub replaces
every non-overlapping occurrence, scanning left to right; matches are
never empty (they start with a dot followed by a digit), so the fuel
argument bounded by the list length always suffices.
-/

/-- Optional dash-range component: a dash followed by a digit run, or
nothing.  Returns the consumed characters and the remainder. -/
def dashRange (l : List Char) : List Char × List Char :=
  match l with
  | '-' :: rest =>
    let p := rest.span Char.isDigit
    if p.1.isEmpty then ([], '-' :: rest) else ('-' :: p.1, p.2)
  | _ => ([], l)

/-- Trailing iterations of the range pattern: repetitions of whitespace,
a digit run and an optional dash-range.  A failed repetition consumes
nothing.  Fuel decreases with every repetition, which consumes at least
one digit. -/
def iterRangesF : Nat → List Char → List Char × List Char
  | 0, l => ([], l)
  | f + 1, l =>
    let pw := l.span isPyWs
    let pd := pw.2.span Char.isDigit
    if pd.1.isEmpty then ([], l)
    else
      let po := dashRange pd.2
      let pm := iterRangesF f po.2
      (pw.1 ++ pd.1 ++ po.1 ++ pm.1, pm.2)

/-- Match of the full range pattern at the head of the list: the matched
characters and the remainder, or none. -/
def rngMatchAt : List Char → Option (List Char × List Char)
  | '.' :: rest =>
    let pd := rest.span Char.isDigit
    if pd.1.isEmpty then none
    else
      let po := dashRange pd.2
      let pc := po.2.span (· = ',')
      let pm := iterRangesF pc.2.length pc.2
      some ('.' :: pd.1 ++ po.1 ++ pc.1 ++ pm.1, pm.2)
  | _ => none

/-- re.search for the range pattern: the text of the leftmost match. -/
def reSearch : List Char → Option (List Char)
  | [] => none
  | c :: cs =>
    match rngMatchAt (c :: cs) with
    | some p => some p.1
    | none => reSearch cs

/-- Worker for re.sub with the range pattern and a literal replacement:
scan left to right, replacing every match and restarting after it. -/
def scanSubF (repl : List Char) : Nat → List Char → List Char
  | _, [] => []
  | 0, l => l
  | f + 1, c :: cs =>
    match rngMatchAt (c :: cs) with
    | some p => repl ++ scanSubF repl f p.2
    | none => c :: scanSubF repl f cs

/-- re.sub with the range pattern and a literal replacement. -/
def reSub (repl l : List Char) : List Char := scanSubF repl l.length l

/-- Worker counting the non-overlapping matches re.sub would replace. -/
def countMatchesF : Nat → List Char → Nat
  | _, [] => 0
  | 0, _ => 0
  | f + 1, c :: cs =>
    match rngMatchAt (c :: cs) with
    | some p => countMatchesF f p.2 + 1
    | none => countMatchesF f cs

/-- Number of non-overlapping matches of the range pattern. -/
def countMatches (l : List Char) : Nat := countMatchesF l.length l

/-- clean_text.extract(input_text): search for the range list; if absent
return the empty list, else substitute each comma-piece (a dot prepended
to every piece after the first) for all pattern occurrences. -/
def extract (input_text : String) : List String :=
  match reSearch input_text.data with
  | none => []
  | some m =>
    let pieces := (splitOnChar ',' m).map pyStripL
    pieces.enum.map fun p =>
      String.mk (reSub (if p.1 = 0 then p.2 else '.' :: p.2) input_text.data)

/-- clean_text.is_balanced(s): equal counts of the two paren characters
and of the two bracket characters. -/
def is_balanced (s : String) : Bool :=
  (s.data.count '(' == s.data.count ')') &&
    (s.data.count '[' == s.data.count ']')

/-- The final loop of clean_text.extract_papyri_references (source lines
258-274).  The earlier recognition stage of the function (text
normalization and the two alternation patterns, lines 218-256) performs
regular-expression matching over free text; it is abstracted here as the
function argument: all_references is the list of raw matches it found,
in order, and this function is the exact post-processing the source
applies to that list. -/
def extract_papyri_references (all_references : List String) : List String :=
  match all_references with
  | [] => []
  | ref :: rest =>
    let r := ref ++ ";"
    let tailRefs := extract_papyri_references rest
    if is_balanced r then
      match extract r with
      | [] => r :: tailRefs
      | l => l.filter (fun n => is_balanced n) ++ tailRefs
    else tailRefs

end CleanText

namespace GTE

/-- The inner processing of GTE.extract over one list of built citation
strings: raw strings are all kept, processed records are kept when
process_extracted_text returns a (truthy, non-None) dictionary; an
uncaught exception propagates. -/
def processList : List String → PyResult (List StructuredCitation)
  | [] => .ok []
  | c :: cs =>
    match process_extracted_text c with
    | .exn => .exn
    | .ok none => processList cs
    | .ok (some r) =>
      match processList cs with
      | .exn => .exn
      | .ok l => .ok (r :: l)

/-- The match loop of GTE.extract (source lines 50-76).  The preceding
re.finditer over the range pattern is abstracted as the input list: each
element is one match as its three named groups (base, ranges, paren).
The loop threads prev_collection, rebuilds the base when it splits into
two space-separated parts, builds one citation string per comma-piece of
the ranges group, and processes each citation. -/
def extractGo (prevColl : String) :
    List (String × String × String) →
      PyResult (List StructuredCitation × List String)
  | [] => .ok ([], [])
  | m :: rest =>
    let sb := pySplitChar ' ' m.1
    let base :=
      if sb.length = 2 then
        prevColl ++ " " ++ sb.getD 0 "" ++ " " ++ sb.getD 1 ""
      else m.1
    let pc' := if sb.length = 2 then prevColl else sb.getD 0 ""
    let rs := (splitOnChar ',' m.2.1.data).map fun r => String.mk (pyStripL r)
    let cits := rs.map fun r => base ++ r ++ " " ++ m.2.2 ++ ";"
    match processList cits with
    | .exn => .exn
    | .ok procs =>
      match extractGo pc' rest with
      | .exn => .exn
      | .ok p => .ok (procs ++ p.1, cits ++ p.2)

/-- GTE.extract(input_text), from the finditer match list: the parallel
lists (processed structured records, raw citation strings). -/
def extract (ms : List (String × String × String)) :
    PyResult (List StructuredCitation × List String) :=
  extractGo "" ms

/-- GTE.greek_text_from_text (source lines 227-250), with its two
external effects abstracted: fetch stands for the scraping of one
structured record by scrape_list (file access wrapped in a bare except
returning None), and unique_dicts stands for the Python set-comprehension
deduplication, whose iteration order the language does not fix - any
list with the same members and no duplicates is a possible value.  The
zip of the raw citation list with the scraped texts of the deduplicated
records, and the dropping of empty or absent texts, are the source
lines 242-250 verbatim. -/
def greek_text_from_text (ms : List (String × String × String))
    (unique_dicts : List StructuredCitation)
    (fetch : StructuredCitation → Option String) :
    PyResult (List (String × String)) :=
  match extract ms with
  | .exn => .exn
  | .ok p =>
    .ok ((p.2.zip (unique_dicts.map fetch)).filterMap fun ab =>
      match ab.2 with
      | none => none
      | some t => if t = "" then none else some (ab.1, t))

end GTE

/-! ## The TEI-XML backend of the text extractor -/

/-- An element tree as lxml presents it: tag, attributes, the text
before the first child, the tail text after the closing tag, and the
child elements. -/
inductive Xml where
  | node (tag : String) (attrs : List (String × String))
      (text : Option String) (tail : Option String)
      (children : List Xml)

/-- Tag of an element. -/
def Xml.tag : Xml → String
  | .node t _ _ _ _ => t

/-- Attribute list of an element. -/
def Xml.attrs : Xml → List (String × String)
  | .node _ a _ _ _ => a

/-- Text before the first child. -/
def Xml.text : Xml → Option String
  | .node _ _ tx _ _ => tx

/-- Tail text after the closing tag. -/
def Xml.tail : Xml → Option String
  | .node _ _ _ tl _ => tl

/-- Child elements. -/
def Xml.children : Xml → List Xml
  | .node _ _ _ _ ch => ch

/-- Lookup of an attribute value. -/
def attrLookup (attrs : List (String × String)) (k : String) : Option String :=
  (attrs.find? fun a => a.1 == k).map fun a => a.2

/-- The namespaced TEI line-break tag as lxml renders it. -/
def teiLbTag : String := "\x7bhttp://www.tei-c.org/ns/1.0\x7dlb"

/-- Python int(s): optional surrounding whitespace, an optional sign and
a digit run (single underscores allowed between digits); none where the
Python call raises ValueError. -/
def pyDigitsRest : List Char → Bool
  | [] => true
  | ['_'] => false
  | '_' :: c :: t => c.isDigit && pyDigitsRest t
  | c :: t => c.isDigit && pyDigitsRest t

/-- Validity of a Python integer-literal digit run. -/
def pyDigitsOk : List Char → Bool
  | [] => false
  | c :: t => c.isDigit && pyDigitsRest t

/-- Value of a digit run, underscores skipped. -/
def pyIntVal (l : List Char) : Nat :=
  l.foldl (fun a c => if c = '_' then a else a * 10 + (c.toNat - 48)) 0

/-- Python int(s) on a string, as an option. -/
def pyInt (s : String) : Option Int :=
  match pyStripL s.data with
  | '+' :: ds => if pyDigitsOk ds then some (pyIntVal ds : Int) else none
  | '-' :: ds => if pyDigitsOk ds then some (-(pyIntVal ds : Int)) else none
  | ds => if pyDigitsOk ds then some (pyIntVal ds : Int) else none

namespace GTE

/-- Selection test of the xpath .//tei:lb[@n]: the namespaced lb tag
with an n attribute present. -/
def isLbN (x : Xml) : Bool :=
  (x.tag == teiLbTag) && (attrLookup x.attrs "n").isSome

mutual

/-- All descendant line-break sites of an element, in document order:
each selected lb paired with its following siblings. -/
def lbSitesNode : Xml → List (Xml × List Xml)
  | .node _ _ _ _ ch => lbSitesList ch

/-- Sites among a sibling list and below it, in document order. -/
def lbSitesList : List Xml → List (Xml × List Xml)
  | [] => []
  | c :: rest =>
    (if isLbN c then [(c, rest)] else []) ++ lbSitesNode c ++ lbSitesList rest

end

/-- Concatenated text and tail of the siblings following a line break,
stopping before the first sibling whose tag ends in lb. -/
def joinSibs : List Xml → String
  | [] => ""
  | s :: rest =>
    if pyEndsWith s.tag "lb" then ""
    else (s.text.getD "") ++ (s.tail.getD "") ++ joinSibs rest

/-- Content of one line: the tail of the line break plus the following
sibling texts, stripped. -/
def lineOf (lb : Xml) (sibs : List Xml) : String :=
  pyStrip ((lb.tail.getD "") ++ joinSibs sibs)

/-- Body of the inner loop of extract_greek_lines_from_file: parse the n
attribute with int (a ValueError skips the site, via the
try-except-continue), skip the site when the parsed number is falsy
(zero), else accumulate its line. -/
def lineStep (acc : List String) (site : Xml × List Xml) : List String :=
  match pyInt ((attrLookup site.1.attrs "n").getD "") with
  | none => acc
  | some k => if k ≠ 0 then acc ++ [lineOf site.1 site.2] else acc

/-- GTE.extract_greek_lines_from_file (source lines 80-108), from the
parsed tree: the file reading and the xpath selection of ab elements
inside edition divs are abstracted as the input list of ab elements.
For every selected line-break site, in document order, the inner loop
body lineStep runs once. -/
def extract_greek_lines (abList : List Xml) : List String :=
  abList.foldl (fun acc ab => (lbSitesNode ab).foldl lineStep acc) []

/-- One site of the declarative reading: the line of a site whose n
attribute parses as a nonzero integer, none otherwise. -/
def lineFilter (site : Xml × List Xml) : Option String :=
  match pyInt ((attrLookup site.1.attrs "n").getD "") with
  | none => none
  | some k => if k ≠ 0 then some (lineOf site.1 site.2) else none

/-- The XML text extractor as the amended claim describes it: one line,
in document order, per line-break site whose n attribute parses as a
nonzero integer. -/
def greekLinesSpec (abList : List Xml) : List String :=
  ((abList.map lbSitesNode).flatten).filterMap lineFilter

end GTE


/-- A list whose optional last element is a digit. -/
def lastDigit (l : List Char) : Prop :=
  ∀ c, l.getLast? = some c → c.isDigit = true

/-! ## Concrete fixtures used by witnesses and counterexamples -/

/-- The finditer match list produced for the text
"BGU IV 123.1-2 (AD 100); Bgu IV 123.1-2 (AD 100);": two differently
written citations of the same passage. -/
def msBGU : List (String × String × String) :=
  [("BGU IV 123.", "1-2", "(AD 100)"), ("Bgu IV 123.", "1-2", "(AD 100)")]

/-- The structured record both citations of msBGU parse to. -/
def recBGU : GTE.StructuredCitation :=
  { collection := "bgu", number := 4, identifier := "123", lines := "" }

/-- A line-break element with n equal to the digit zero and tail text. -/
def lbZero : Xml := Xml.node teiLbTag [("n", "0")] none (some "abc") []

/-- An ab element containing only lbZero. -/
def abZero : Xml := Xml.node "ab" [] none none [lbZero]

/-! ## Helper lemmas -/

/-- On bracket-free input the two smart_split workers coincide. -/
lemma ssCT_eq_ssGTE (l : List Char) :
    ∀ (cur : List Char) (d : Int), (∀ c ∈ l, c ≠ '[' ∧ c ≠ ']') →
      CleanText.ssCT ' ' l cur d = GTE.ssGTE l cur d := by
  induction l with
  | nil => intro cur d _; rfl
  | cons c cs ih =>
    intro cur d h
    have hc := h c (List.mem_cons_self c cs)
    have hcs : ∀ x ∈ cs, x ≠ '[' ∧ x ≠ ']' :=
      fun x hx => h x (List.mem_cons_of_mem c hx)
    have e1 : (c = '(' ∨ c = '[') ↔ c = '(' := or_iff_left hc.1
    have e2 : (c = ')' ∨ (c = ']' ∧ d > 0)) ↔ c = ')' :=
      or_iff_left fun hx => hc.2 hx.1
    simp only [CleanText.ssCT, GTE.ssGTE, e1, e2]
    split_ifs <;> simp [ih _ _ hcs]

/-- Every character of every token produced by the clean_text splitter
comes from the accumulator or from the input. -/
lemma mem_ssCT (delim : Char) (l : List Char) :
    ∀ (cur : List Char) (d : Int) (t : List Char),
      t ∈ CleanText.ssCT delim l cur d → ∀ c ∈ t, c ∈ cur ∨ c ∈ l := by
  induction l with
  | nil =>
    intro cur d t ht c hc
    simp only [CleanText.ssCT] at ht
    split at ht
    · exact absurd ht (List.not_mem_nil t)
    · rw [List.mem_singleton] at ht; subst ht; exact Or.inl hc
  | cons x xs ih =>
    intro cur d t ht c hc
    simp only [CleanText.ssCT, List.mem_cons]
    simp only [CleanText.ssCT] at ht
    split_ifs at ht
    · have := ih _ _ _ ht c hc
      simp only [List.mem_append, List.mem_singleton] at this
      tauto
    · have := ih _ _ _ ht c hc
      simp only [List.mem_append, List.mem_singleton] at this
      tauto
    · have := ih _ _ _ ht c hc
      simp only [List.not_mem_nil] at this
      tauto
    · rcases List.mem_cons.1 ht with h | h
      · subst h; exact Or.inl hc
      · have := ih _ _ _ h c hc
        simp only [List.not_mem_nil] at this
        tauto
    · have := ih _ _ _ ht c hc
      simp only [List.mem_append, List.mem_singleton] at this
      tauto

/-- An all-space input yields no tokens in the clean_text splitter. -/
lemma ssCT_all_space (l : List Char) (h : ∀ c ∈ l, c = ' ') :
    CleanText.ssCT ' ' l [] 0 = [] := by
  induction l with
  | nil => rfl
  | cons c cs ih =>
    have hc := h c (List.mem_cons_self c cs)
    subst hc
    simp only [CleanText.ssCT]
    rw [if_neg (by decide), if_neg (by decide), if_pos (by decide),
      if_pos (by decide)]
    exact ih fun x hx => h x (List.mem_cons_of_mem _ hx)

/-- An all-space input yields no tokens in the GTE splitter. -/
lemma ssGTE_all_space (l : List Char) (h : ∀ c ∈ l, c = ' ') :
    GTE.ssGTE l [] 0 = [] := by
  induction l with
  | nil => rfl
  | cons c cs ih =>
    have hc := h c (List.mem_cons_self c cs)
    subst hc
    simp only [GTE.ssGTE]
    rw [if_neg (by decide), if_neg (by decide), if_pos (by decide),
      if_pos (by decide)]
    exact ih fun x hx => h x (List.mem_cons_of_mem _ hx)

/-- A duplicate-free list with the members of [a, a] is [a]. -/
lemma nodup_pair_eq_singleton {α : Type} (u : List α) (a : α)
    (hnd : u.Nodup) (hmem : ∀ d, d ∈ u ↔ d ∈ [a, a]) : u = [a] := by
  have ha : a ∈ u := (hmem a).2 (by simp)
  have hall : ∀ d ∈ u, d = a := by
    intro d hd
    have := (hmem d).1 hd
    simpa using this
  cases u with
  | nil => simp at ha
  | cons x xs =>
    have hx : x = a := hall x (List.mem_cons_self _ _)
    cases xs with
    | nil => rw [hx]
    | cons y ys =>
      have hy : y = a := hall y (by simp)
      exfalso
      have hni : x ∉ y :: ys := (List.nodup_cons.1 hnd).1
      exact hni (by simp [hx, hy])

/-! ## Lemmas about the range-pattern matcher -/

namespace CleanText

/-- The dash-range component consumes a prefix. -/
lemma dashRange_append (l : List Char) :
    (dashRange l).1 ++ (dashRange l).2 = l := by
  unfold dashRange
  split
  · rename_i rest
    rw [List.span_eq_take_drop]
    dsimp only
    split
    · rfl
    · rw [List.cons_append, List.takeWhile_append_dropWhile]
  · rfl

/-- The trailing-iterations component consumes a prefix. -/
lemma iterRangesF_append (f : Nat) :
    ∀ l : List Char, (iterRangesF f l).1 ++ (iterRangesF f l).2 = l := by
  induction f with
  | zero => intro l; rfl
  | succ f ih =>
    intro l
    simp only [iterRangesF, List.span_eq_take_drop]
    split
    · rfl
    · dsimp only
      simp only [List.append_assoc, ih, dashRange_append,
        List.takeWhile_append_dropWhile]

/-- A match of the range pattern partitions the input, and the matched
text starts with a dot. -/
lemma rngMatchAt_some (l : List Char) (p : List Char × List Char)
    (h : rngMatchAt l = some p) :
    p.1 ++ p.2 = l ∧ ∃ t, p.1 = '.' :: t := by
  unfold rngMatchAt at h
  split at h
  · rename_i rest
    rw [List.span_eq_take_drop] at h
    dsimp only at h
    split at h
    · exact absurd h (Option.noConfusion)
    · rw [Option.some_inj] at h
      subst h
      constructor
      · dsimp only
        rw [List.span_eq_take_drop]
        dsimp only
        simp only [List.cons_append, List.append_assoc, iterRangesF_append,
          List.takeWhile_append_dropWhile, dashRange_append]
      · exact ⟨_, rfl⟩
  · exact absurd h (Option.noConfusion)

/-- The remainder after a match is strictly shorter than the input. -/
lemma rngMatchAt_rest_lt (l : List Char) (p : List Char × List Char)
    (h : rngMatchAt l = some p) : p.2.length < l.length := by
  obtain ⟨happ, t, hm⟩ := rngMatchAt_some l p h
  have := congrArg List.length happ
  rw [List.length_append, hm] at this
  simp only [List.length_cons] at this
  omega

/-- Any sufficient fuel computes the same substitution. -/
lemma scanSubF_fuel (repl : List Char) :
    ∀ (f g : Nat) (l : List Char), l.length ≤ f → l.length ≤ g →
      scanSubF repl f l = scanSubF repl g l := by
  intro f
  induction f with
  | zero =>
    intro g l hf _
    have : l = [] := List.length_eq_zero.1 (Nat.le_zero.1 hf)
    subst this
    cases g <;> rfl
  | succ f ih =>
    intro g l hf hg
    cases l with
    | nil => cases g <;> rfl
    | cons c cs =>
      cases g with
      | zero => simp at hg
      | succ g' =>
        simp only [scanSubF]
        cases hm : rngMatchAt (c :: cs) with
        | some p =>
          have hlt := rngMatchAt_rest_lt _ _ hm
          simp only [List.length_cons] at hlt hf hg
          dsimp only
          rw [ih g' p.2 (by omega) (by omega)]
        | none =>
          simp only [List.length_cons] at hf hg
          dsimp only
          rw [ih g' cs (by omega) (by omega)]

/-- Any sufficient fuel computes the same match count. -/
lemma countMatchesF_fuel :
    ∀ (f g : Nat) (l : List Char), l.length ≤ f → l.length ≤ g →
      countMatchesF f l = countMatchesF g l := by
  intro f
  induction f with
  | zero =>
    intro g l hf _
    have : l = [] := List.length_eq_zero.1 (Nat.le_zero.1 hf)
    subst this
    cases g <;> rfl
  | succ f ih =>
    intro g l hf hg
    cases l with
    | nil => cases g <;> rfl
    | cons c cs =>
      cases g with
      | zero => simp at hg
      | succ g' =>
        simp only [countMatchesF]
        cases hm : rngMatchAt (c :: cs) with
        | some p =>
          have hlt := rngMatchAt_rest_lt _ _ hm
          simp only [List.length_cons] at hlt hf hg
          dsimp only
          rw [ih g' p.2 (by omega) (by omega)]
        | none =>
          simp only [List.length_cons] at hf hg
          dsimp only
          rw [ih g' cs (by omega) (by omega)]

/-- Substitution is the identity on match-free text. -/
lemma reSub_of_count_zero (repl : List Char) :
    ∀ (n : Nat) (l : List Char), l.length ≤ n → countMatches l = 0 →
      reSub repl l = l := by
  intro n
  induction n with
  | zero =>
    intro l h _
    have : l = [] := List.length_eq_zero.1 (Nat.le_zero.1 h)
    subst this; rfl
  | succ n ih =>
    intro l h hc
    cases l with
    | nil => rfl
    | cons c cs =>
      unfold reSub
      simp only [List.length_cons, scanSubF]
      cases hm : rngMatchAt (c :: cs) with
      | some p =>
        exfalso
        unfold countMatches at hc
        simp only [List.length_cons, countMatchesF, hm] at hc
        omega
      | none =>
        have hc' : countMatches cs = 0 := by
          unfold countMatches at hc ⊢
          simp only [List.length_cons, countMatchesF, hm] at hc
          exact hc
        have := ih cs (by simp only [List.length_cons] at h; omega) hc'
        unfold reSub at this
        rw [this]

/-- With exactly one match, substituting the leftmost-match text for the
pattern leaves the text unchanged. -/
lemma reSub_search_unique :
    ∀ (n : Nat) (l m : List Char), l.length ≤ n → reSearch l = some m →
      countMatches l = 1 → reSub m l = l := by
  intro n
  induction n with
  | zero =>
    intro l m h hs _
    have : l = [] := List.length_eq_zero.1 (Nat.le_zero.1 h)
    subst this; exact absurd hs (by simp [reSearch])
  | succ n ih =>
    intro l m h hs hc
    cases l with
    | nil => exact absurd hs (by simp [reSearch])
    | cons c cs =>
      simp only [List.length_cons] at h
      cases hm : rngMatchAt (c :: cs) with
      | some p =>
        have hmp : m = p.1 := by
          simp only [reSearch, hm] at hs
          exact (Option.some_inj.1 hs).symm
        have hlt := rngMatchAt_rest_lt _ _ hm
        simp only [List.length_cons] at hlt
        have hcount : countMatches p.2 = 0 := by
          unfold countMatches at hc
          simp only [List.length_cons, countMatchesF, hm] at hc
          unfold countMatches
          rw [← countMatchesF_fuel cs.length p.2.length p.2 (by omega)
            (Nat.le_refl _)]
          omega
        have happ := (rngMatchAt_some _ _ hm).1
        unfold reSub
        simp only [List.length_cons, scanSubF, hm]
        rw [scanSubF_fuel m cs.length p.2.length p.2 (by omega)
          (Nat.le_refl _)]
        have := reSub_of_count_zero m p.2.length p.2 (Nat.le_refl _) hcount
        unfold reSub at this
        rw [this, hmp, happ]
      | none =>
        have hs' : reSearch cs = some m := by
          simpa only [reSearch, hm] using hs
        have hc' : countMatches cs = 1 := by
          unfold countMatches at hc ⊢
          simpa only [List.length_cons, countMatchesF, hm] using hc
        unfold reSub
        simp only [List.length_cons, scanSubF, hm]
        have := ih cs m (by omega) hs' hc'
        unfold reSub at this
        rw [this]

end CleanText

/-- Splitting on a separator absent from the list is the identity. -/
lemma splitOnChar_of_not_mem (sep : Char) (l : List Char)
    (h : sep ∉ l) : splitOnChar sep l = [l] := by
  induction l with
  | nil => rfl
  | cons x xs ih =>
    have hx : x ≠ sep := fun hx => h (hx ▸ List.mem_cons_self x xs)
    have hxs : sep ∉ xs := fun hm => h (List.mem_cons_of_mem x hm)
    simp only [splitOnChar, ih hxs]
    rw [if_neg hx]

lemma lastDigit_nil : lastDigit [] := by
  intro c h; simp at h

lemma lastDigit_append_right {a b : List Char} (hne : b ≠ [])
    (hb : lastDigit b) : lastDigit (a ++ b) := by
  intro c hc
  rw [List.getLast?_append_of_ne_nil _ hne] at hc
  exact hb c hc

lemma lastDigit_append {a b : List Char} (ha : lastDigit a)
    (hb : lastDigit b) : lastDigit (a ++ b) := by
  by_cases h : b = []
  · subst h; simpa using ha
  · exact lastDigit_append_right h hb

lemma lastDigit_takeWhile (l : List Char) :
    lastDigit (l.takeWhile Char.isDigit) := by
  intro c hc
  have hmem : c ∈ l.takeWhile Char.isDigit := by
    have hx : c ∈ (l.takeWhile Char.isDigit).getLast? := hc
    obtain ⟨h, rfl⟩ := List.mem_getLast?_eq_getLast hx
    exact List.getLast_mem h
  exact List.mem_takeWhile_imp hmem

/-- A digit is not Python whitespace. -/
lemma isPyWs_eq_false_of_isDigit {c : Char} (h : c.isDigit = true) :
    isPyWs c = false := by
  unfold isPyWs
  simp only [Bool.or_eq_false_iff, beq_eq_false_iff_ne]
  refine ⟨⟨⟨⟨⟨?_, ?_⟩, ?_⟩, ?_⟩, ?_⟩, ?_⟩ <;>
    (rintro rfl; exact absurd h (by decide))

namespace CleanText

lemma lastDigit_dashRange (l : List Char) : lastDigit (dashRange l).1 := by
  unfold dashRange
  split
  · rename_i rest
    rw [List.span_eq_take_drop]
    dsimp only
    split
    · exact lastDigit_nil
    · rename_i hne
      have htw : rest.takeWhile Char.isDigit ≠ [] := by
        intro h; rw [h] at hne; exact hne rfl
      intro c hc
      rw [show ('-' :: rest.takeWhile Char.isDigit) =
        ['-'] ++ rest.takeWhile Char.isDigit from rfl,
        List.getLast?_append_of_ne_nil _ htw] at hc
      exact lastDigit_takeWhile rest c hc
  · exact lastDigit_nil

lemma lastDigit_iterRangesF (f : Nat) :
    ∀ l, lastDigit (iterRangesF f l).1 := by
  induction f with
  | zero => intro l; exact lastDigit_nil
  | succ f ih =>
    intro l
    simp only [iterRangesF, List.span_eq_take_drop]
    split
    · exact lastDigit_nil
    · rename_i hne
      dsimp only
      have htw : (l.dropWhile isPyWs).takeWhile Char.isDigit ≠ [] := by
        intro h; rw [h] at hne; exact hne rfl
      exact lastDigit_append
        (lastDigit_append
          (lastDigit_append_right htw (lastDigit_takeWhile _))
          (lastDigit_dashRange _))
        (ih _)

end CleanText

/-- The optional last element ignores a cons onto a nonempty list. -/
lemma getLast?_cons_ne {α : Type} (a : α) (l : List α) (h : l ≠ []) :
    (a :: l).getLast? = l.getLast? := by
  rw [show (a :: l) = [a] ++ l from rfl, List.getLast?_append_of_ne_nil _ h]

/-- A list whose first character is not whitespace and whose last
character is not whitespace is untouched by Python strip. -/
lemma pyStripL_eq_self {l : List Char}
    (h1 : ∀ c, l.head? = some c → isPyWs c = false)
    (h2 : ∀ c, l.getLast? = some c → isPyWs c = false) :
    pyStripL l = l := by
  unfold pyStripL
  have hd : l.dropWhile isPyWs = l := by
    cases l with
    | nil => rfl
    | cons c cs =>
      rw [List.dropWhile_cons, if_neg]
      rw [h1 c rfl]
      simp
  rw [hd]
  have hr : l.reverse.dropWhile isPyWs = l.reverse := by
    cases hrev : l.reverse with
    | nil => rfl
    | cons c cs =>
      rw [List.dropWhile_cons, if_neg]
      have hlast : l.getLast? = some c := by
        rw [← List.head?_reverse, hrev]; rfl
      rw [h2 c hlast]
      simp
  rw [hr, List.reverse_reverse]

namespace CleanText

/-- A comma-free match of the range pattern is strip-invariant: it
starts with a dot and ends with a digit. -/
lemma rngMatchAt_strip (l : List Char) (p : List Char × List Char)
    (h : rngMatchAt l = some p) (hnc : ',' ∉ p.1) : pyStripL p.1 = p.1 := by
  unfold rngMatchAt at h
  split at h
  · rename_i rest
    rw [List.span_eq_take_drop] at h
    dsimp only at h
    split at h
    · exact absurd h Option.noConfusion
    · rename_i hne
      rw [Option.some_inj] at h
      subst h
      dsimp only at hnc ⊢
      rw [List.span_eq_take_drop] at hnc ⊢
      dsimp only at hnc ⊢
      have htw : rest.takeWhile Char.isDigit ≠ [] := by
        intro hx; rw [hx] at hne; exact hne rfl
      have hpc :
          ((dashRange (rest.dropWhile Char.isDigit)).2.takeWhile
            fun c => c = ',') = [] := by
        cases hx : ((dashRange (rest.dropWhile Char.isDigit)).2.takeWhile
            fun c => c = ',') with
        | nil => rfl
        | cons y ys =>
          exfalso
          have hy : y ∈ ((dashRange (rest.dropWhile Char.isDigit)).2.takeWhile
              fun c => c = ',') := by rw [hx]; exact List.mem_cons_self y ys
          have hy' := List.mem_takeWhile_imp hy
          have hyc : y = ',' := by simpa using hy'
          apply hnc
          subst hyc
          simp [hx, List.mem_append]
      rw [hpc] at hnc ⊢
      simp only [List.cons_append, List.append_nil, List.append_assoc]
        at hnc ⊢
      refine pyStripL_eq_self ?_ ?_
      · intro c hc
        simp only [List.head?_cons, Option.some_inj] at hc
        subst hc
        decide
      · intro c hc
        have hchain : (rest.takeWhile Char.isDigit ++
            ((dashRange (rest.dropWhile Char.isDigit)).1 ++
              (iterRangesF
                ((dashRange (rest.dropWhile Char.isDigit)).2.dropWhile
                  fun c => c = ',').length
                ((dashRange (rest.dropWhile Char.isDigit)).2.dropWhile
                  fun c => c = ',')).1)) ≠ [] := by
          simp [htw]
        rw [getLast?_cons_ne _ _ hchain] at hc
        have hld : lastDigit (rest.takeWhile Char.isDigit ++
            ((dashRange (rest.dropWhile Char.isDigit)).1 ++
              (iterRangesF
                ((dashRange (rest.dropWhile Char.isDigit)).2.dropWhile
                  fun c => c = ',').length
                ((dashRange (rest.dropWhile Char.isDigit)).2.dropWhile
                  fun c => c = ',')).1)) :=
          lastDigit_append (lastDigit_takeWhile _)
            (lastDigit_append (lastDigit_dashRange _)
              (lastDigit_iterRangesF _ _))
        exact isPyWs_eq_false_of_isDigit (hld c hc)
  · exact absurd h Option.noConfusion

/-- The text of the leftmost match comes from a match of the pattern at
some position. -/
lemma reSearch_some (l : List Char) :
    ∀ m, reSearch l = some m →
      ∃ l' p, rngMatchAt l' = some p ∧ p.1 = m := by
  induction l with
  | nil => intro m h; exact absurd h (by simp [reSearch])
  | cons c cs ih =>
    intro m h
    cases hm : rngMatchAt (c :: cs) with
    | some p =>
      simp only [reSearch, hm, Option.some_inj] at h
      exact ⟨c :: cs, p, hm, h⟩
    | none =>
      simp only [reSearch, hm] at h
      exact ih m h

end CleanText

/-! ## Helper lemmas for the XML extractor and the tokenizers -/

lemma lineStep_eq (acc : List String) (site : Xml × List Xml) :
    GTE.lineStep acc site = acc ++ (GTE.lineFilter site).toList := by
  unfold GTE.lineStep GTE.lineFilter
  cases hp : pyInt ((attrLookup site.1.attrs "n").getD "") with
  | none => simp
  | some k =>
    dsimp only
    by_cases hk : k = 0
    · subst hk; simp
    · simp [hk]

lemma foldl_lineStep (sites : List (Xml × List Xml)) :
    ∀ acc, sites.foldl GTE.lineStep acc =
      acc ++ sites.filterMap GTE.lineFilter := by
  induction sites with
  | nil => intro acc; simp
  | cons s ss ih =>
    intro acc
    rw [List.foldl_cons, ih, lineStep_eq]
    cases hf : GTE.lineFilter s with
    | none => simp [List.filterMap_cons, hf]
    | some x => simp [List.filterMap_cons, hf]

lemma foldl_absList (abList : List Xml) :
    ∀ acc, abList.foldl
        (fun acc ab => (GTE.lbSitesNode ab).foldl GTE.lineStep acc) acc =
      acc ++ ((abList.map GTE.lbSitesNode).flatten).filterMap
        GTE.lineFilter := by
  induction abList with
  | nil => intro acc; simp
  | cons ab abs ih =>
    intro acc
    rw [List.foldl_cons, ih, foldl_lineStep]
    simp [List.filterMap_append, List.append_assoc]

/-- On bracket-free strings the two tokenizers coincide. -/
lemma smart_split_agree (s : String) (h : ∀ c ∈ s.data, c ≠ '[' ∧ c ≠ ']') :
    CleanText.smart_split s ' ' = GTE.smart_split s := by
  unfold CleanText.smart_split GTE.smart_split
  rw [ssCT_eq_ssGTE _ _ _ h]

/-- A string free of open square brackets does not start with one. -/
lemma pyStartsWith_bracket_false (s : String) (h : ∀ c ∈ s.data, c ≠ '[') :
    pyStartsWith s "[" = false := by
  unfold pyStartsWith
  show (['['] : List Char).isPrefixOf s.data = false
  cases hs : s.data with
  | nil => rfl
  | cons c cs =>
    have hc : c ≠ '[' := h c (by rw [hs]; exact List.mem_cons_self _ _)
    show (('[' == c) && List.isPrefixOf [] cs) = false
    simp only [Bool.and_eq_false_iff, beq_eq_false_iff_ne]
    exact Or.inl fun hx => hc hx.symm

/-- All-space strings tokenize to the empty list (clean_text splitter). -/
lemma smart_split_all_space (s : String) (h : ∀ c ∈ s.data, c = ' ') :
    CleanText.smart_split s ' ' = [] := by
  unfold CleanText.smart_split
  rw [ssCT_all_space _ h]
  rfl

/-- All-space strings tokenize to the empty list (GTE splitter). -/
lemma smart_splitGTE_all_space (s : String) (h : ∀ c ∈ s.data, c = ' ') :
    GTE.smart_split s = [] := by
  unfold GTE.smart_split
  rw [ssGTE_all_space _ h]
  rfl

/-- Tokens of the clean_text splitter draw their characters from the
input string. -/
lemma mem_smart_split_chars (s t : String) (d : Char)
    (ht : t ∈ CleanText.smart_split s d) : ∀ c ∈ t.data, c ∈ s.data := by
  intro c hc
  unfold CleanText.smart_split at ht
  obtain ⟨w, hw, hwt⟩ := List.mem_map.1 ht
  have hdata : t.data = w := by rw [← hwt]
  rw [hdata] at hc
  rcases mem_ssCT d s.data [] 0 w hw c hc with h | h
  · exact absurd h (List.not_mem_nil c)
  · exact h

/-! ## Claim theorems -/

/-- C10: on an empty or whitespace-only input string (one whose
bracket-aware split yields no tokens), both the context expander and the
citation parser raise an uncaught out-of-range indexing exception instead
of returning their documented failure values. -/
theorem claim_C10_thm (s pc pv pid : String) (h : ∀ c ∈ s.data, c = ' ') :
    CleanText.expand s pc pv pid = .exn ∧
      GTE.process_extracted_text s = .exn := by
  constructor
  · unfold CleanText.expand
    rw [smart_split_all_space s h]
    simp
  · unfold GTE.process_extracted_text
    rw [smart_splitGTE_all_space s h]
    simp

/-- Witness for C10 at the empty string and at one space. -/
theorem claim_C10_wit :
    (CleanText.expand "" "a" "b" "c" = .exn ∧
      GTE.process_extracted_text "" = .exn) ∧
    (CleanText.expand " " "a" "b" "c" = .exn ∧
      GTE.process_extracted_text " " = .exn) :=
  ⟨claim_C10_thm "" "a" "b" "c" (by decide),
   claim_C10_thm " " "a" "b" "c" (by decide)⟩

/-- C5 (amended): the two tokenizers agree on every string containing no
square bracket, where both compute the parenthesis-depth-aware space
split; they differ on square brackets, which only the clean_text
tokenizer treats as depth changes. -/
theorem claim_C5_thm (s : String)
    (h : ∀ c ∈ s.data, c ≠ '[' ∧ c ≠ ']') :
    CleanText.smart_split s ' ' = GTE.smart_split s :=
  smart_split_agree s h

/-- Witness for C5 on a bracket-free citation-like string. -/
theorem claim_C5_wit :
    CleanText.smart_split "a (b c)" ' ' = GTE.smart_split "a (b c)" :=
  claim_C5_thm "a (b c)" (by decide)

/-- Counterexample for C5 as stated: on a square-bracketed input the two
tokenizers disagree, so they do not compute the same function. -/
theorem claim_C5_cex :
    CleanText.smart_split "[a b]" ' ' = ["[a b]"] ∧
      GTE.smart_split "[a b]" = ["[a", "b]"] ∧
      CleanText.smart_split "[a b]" ' ' ≠ GTE.smart_split "[a b]" :=
  ⟨by decide, by decide, by decide⟩

/-- C4 (amended): expanding "P. OXY. 123. 10-12 (AD 100)" from the empty
context fails (five bracket-aware tokens, so the sentinel " Failed" is
appended and the context stays empty); expanding "125. 5-7 (AD 100)"
with that still-empty context takes the three-token branch, leaves the
clause unchanged and sets the context collection to "125."; parsing the
resulting clause returns absent (odd token count). -/
theorem claim_C4_thm :
    CleanText.expand "P. OXY. 123. 10-12 (AD 100)" "" "" "" =
        .ok ("P. OXY. 123. 10-12 (AD 100) Failed", "", "", "") ∧
      CleanText.expand "125. 5-7 (AD 100)" "" "" "" =
        .ok ("125. 5-7 (AD 100)", "125.", "", "") ∧
      GTE.process_extracted_text "125. 5-7 (AD 100)" = .ok none :=
  ⟨by decide, by decide, by decide⟩

/-- Counterexample for C4 as stated: the chained expansion leaves the
context collection "125." rather than "p. oxy.", and the parse of the
second expanded clause is absent, so no record with identifier "125" and
lineRange "5-7" is produced. -/
theorem claim_C4_cex :
    CleanText.expand "125. 5-7 (AD 100)" "" "" "" =
        .ok ("125. 5-7 (AD 100)", "125.", "", "") ∧
      ("125." : String) ≠ "p. oxy." ∧
      GTE.process_extracted_text "125. 5-7 (AD 100)" = .ok none ∧
      PyResult.ok (none : Option GTE.StructuredCitation) ≠
        .ok (some { collection := "p. oxy.", number := 123,
                    identifier := "125", lines := "5-7" }) :=
  ⟨by decide, by decide, by decide, by decide⟩

/-- C6: every reference emitted by the final loop of
extract_papyri_references is bracket-balanced, whatever list of raw
regex matches the recognition stage produced; in particular the
unbalanced span "P. OXY. (123" is never emitted. -/
theorem claim_C6_thm :
    (∀ (refs : List String) (s : String),
        s ∈ CleanText.extract_papyri_references refs →
          CleanText.is_balanced s = true) ∧
      ∀ refs : List String,
        "P. OXY. (123" ∉ CleanText.extract_papyri_references refs := by
  have main : ∀ (refs : List String) (s : String),
      s ∈ CleanText.extract_papyri_references refs →
        CleanText.is_balanced s = true := by
    intro refs
    induction refs with
    | nil =>
      intro s hs
      simp [CleanText.extract_papyri_references] at hs
    | cons ref rest ih =>
      intro s hs
      simp only [CleanText.extract_papyri_references] at hs
      split_ifs at hs with hb
      · split at hs
        · rcases List.mem_cons.1 hs with h | h
          · subst h; exact hb
          · exact ih s h
        · rcases List.mem_append.1 hs with h | h
          · exact (List.mem_filter.1 h).2
          · exact ih s h
      · exact ih s hs
  refine ⟨main, fun refs hmem => ?_⟩
  have := main refs _ hmem
  exact absurd this (by decide)

/-- Witness for C6 on a one-element match list. -/
theorem claim_C6_wit :
    CleanText.is_balanced "A (x);" = true ∧
      "P. OXY. (123" ∉ CleanText.extract_papyri_references ["A (x)"] :=
  ⟨claim_C6_thm.1 ["A (x)"] "A (x);" (by decide),
   claim_C6_thm.2 ["A (x)"]⟩

/-- C8 (amended): for every citation whose bracket-aware split is
nonempty and whose adjusted token count is not 4, 3 or 2 plus the
uncertainty offset, expand returns the citation suffixed with the
sentinel " Failed" (whitespace collapsed) and the threaded context
unchanged. -/
theorem claim_C8_thm (text pc pv pid : String)
    (h0 : CleanText.smart_split text ' ' ≠ [])
    (h4 : (CleanText.adjustedParts (CleanText.smart_split text ' ')).length ≠
      4 + CleanText.uncertaintyOffset
        (CleanText.adjustedParts (CleanText.smart_split text ' ')))
    (h3 : (CleanText.adjustedParts (CleanText.smart_split text ' ')).length ≠
      3 + CleanText.uncertaintyOffset
        (CleanText.adjustedParts (CleanText.smart_split text ' ')))
    (h2 : (CleanText.adjustedParts (CleanText.smart_split text ' ')).length ≠
      2 + CleanText.uncertaintyOffset
        (CleanText.adjustedParts (CleanText.smart_split text ' '))) :
    CleanText.expand text pc pv pid =
      .ok (collapseWs (text ++ " Failed"), pc, pv, pid) := by
  unfold CleanText.expand
  have h0' : ¬ ((CleanText.smart_split text ' ').isEmpty = true) := by
    intro hx
    exact h0 (List.isEmpty_iff.1 hx)
  rw [if_neg h0']
  dsimp only
  rw [if_neg h4, if_neg fun hc => h3 hc.1, if_neg h3, if_neg h2]

/-- Witness for C8 on a five-token citation. -/
theorem claim_C8_wit :
    CleanText.expand "A B C D E" "x" "y" "z" =
      .ok (collapseWs ("A B C D E" ++ " Failed"), "x", "y", "z") :=
  claim_C8_thm "A B C D E" "x" "y" "z" (by decide) (by decide) (by decide)
    (by decide)

/-- Counterexample for C8 as stated: the empty citation has adjusted
token count 0, which is none of the recognized counts, yet expand raises
instead of returning the sentinel. -/
theorem claim_C8_cex :
    CleanText.expand "" "x" "y" "z" = .exn ∧
      (PyResult.exn : PyResult (String × String × String × String)) ≠
        .ok (collapseWs ("" ++ " Failed"), "x", "y", "z") :=
  ⟨by decide, by decide⟩

/-- C3 (amended): the citation parser succeeds only with an even token
count; on success, collection is token 0 lowercased with a trailing dot
stripped, number is the roman conversion of token 1, identifier is the
pre-dot segment of token 2, and the lines field is left at its empty
default (it is never populated from token 2); an invalid roman numeral
yields absent, not an exception. -/
theorem claim_C3_thm :
    (∀ (s : String) (r : GTE.StructuredCitation),
        GTE.process_extracted_text s = .ok (some r) →
          (GTE.smart_split s).length % 2 = 0 ∧
          ∃ p0 p1 p2 rest, GTE.smart_split s = p0 :: p1 :: p2 :: rest ∧
            r.collection = GTE.stripTrailingDotLower p0 ∧
            fromRoman p1 = some r.number ∧
            r.identifier = predot p2 ∧
            r.lines = "") ∧
      ∀ (s p0 p1 : String) (rest : List String),
        GTE.smart_split s = p0 :: p1 :: rest →
        (GTE.smart_split s).length % 2 = 0 →
        fromRoman p1 = none →
        GTE.process_extracted_text s = .ok none := by
  constructor
  · intro s r h
    unfold GTE.process_extracted_text at h
    rcases hs : GTE.smart_split s with _ | ⟨p0, _ | ⟨p1, _ | ⟨p2, rest⟩⟩⟩ <;>
      simp only [hs] at h
    · simp at h
    · simp at h
    · rcases hfr : fromRoman p1 with _ | v <;> simp [hfr] at h
    · split_ifs at h with hev
      · rcases hfr : fromRoman p1 with _ | v
        · simp [hfr] at h
        · simp only [hfr, PyResult.ok.injEq, Option.some_inj] at h
          subst h
          exact ⟨hev, p0, p1, p2, rest, rfl, rfl, hfr, rfl, rfl⟩
      · simp at h
  · intro s p0 p1 rest hs he hfr
    have he' := he
    rw [hs] at he'
    cases rest with
    | nil => simp [GTE.process_extracted_text, hs, hfr]
    | cons p2 r3 => simp [GTE.process_extracted_text, hs, hfr, he']

/-- Witness for C3: a successful parse with its field equations, and an
invalid roman numeral yielding absent on an even token count. -/
theorem claim_C3_wit :
    ((GTE.smart_split "BGU IV 123.4-5 (AD 100);").length % 2 = 0 ∧
      ∃ p0 p1 p2 rest,
        GTE.smart_split "BGU IV 123.4-5 (AD 100);" =
          p0 :: p1 :: p2 :: rest ∧
        recBGU.collection = GTE.stripTrailingDotLower p0 ∧
        fromRoman p1 = some recBGU.number ∧
        recBGU.identifier = predot p2 ∧
        recBGU.lines = "") ∧
      GTE.process_extracted_text "A B" = .ok none :=
  ⟨claim_C3_thm.1 "BGU IV 123.4-5 (AD 100);" recBGU (by decide),
   claim_C3_thm.2 "A B" "A" "B" [] (by decide) (by decide) (by decide)⟩

/-- Counterexample for C3 as stated: on a well-formed citation the
parser returns lines equal to the empty string, not the post-dot
segment "4-5" of token 2. -/
theorem claim_C3_cex :
    GTE.process_extracted_text "BGU IV 123.4-5 (AD 100);" =
        .ok (some { collection := "bgu", number := 4, identifier := "123",
                    lines := "" }) ∧
      ("" : String) ≠ "4-5" :=
  ⟨by decide, by decide⟩

/-- C2 (amended): for a well-formed 4-part citation (bracket-aware split
of exactly four tokens, token 1 a valid roman numeral, token 2
containing a dot) that contains no square bracket, is
whitespace-normalized and has no bare question-mark token, parsing the
expansion under any context recovers collection (token 0 lowercased,
trailing dot stripped), volume (roman conversion of token 1) and
identifier (pre-dot segment of token 2), while the parsed lineRange
field is always the empty string: the parser never populates it from
token 2. -/
theorem claim_C2_thm (text pc pv pid t0 t1 t2 t3 : String) (v : Nat)
    (H1 : CleanText.smart_split text ' ' = [t0, t1, t2, t3])
    (H2 : fromRoman t1 = some v)
    (_H3 : '.' ∈ t2.data)
    (H4 : ∀ c ∈ text.data, c ≠ '[' ∧ c ≠ ']')
    (H5 : collapseWs text = text)
    (H6 : t0 ≠ "?" ∧ t1 ≠ "?" ∧ t2 ≠ "?" ∧ t3 ≠ "?") :
    CleanText.expand text pc pv pid = .ok (text, t0, t1, predot t2) ∧
      GTE.process_extracted_text text =
        .ok (some { collection := GTE.stripTrailingDotLower t0, number := v,
                    identifier := predot t2, lines := "" }) := by
  have hGTE : GTE.smart_split text = [t0, t1, t2, t3] := by
    rw [← smart_split_agree text H4, H1]
  have ht3 : pyStartsWith t3 "[" = false := by
    apply pyStartsWith_bracket_false
    intro c hc
    exact (H4 c (mem_smart_split_chars text t3 ' ' (by rw [H1]; simp) c hc)).1
  have hadj : CleanText.adjustedParts [t0, t1, t2, t3] = [t0, t1, t2, t3] := by
    unfold CleanText.adjustedParts
    have : List.getLastD [t0, t1, t2, t3] "" = t3 := rfl
    rw [this, ht3]
    simp
  have hoff : CleanText.uncertaintyOffset [t0, t1, t2, t3] = 0 := by
    unfold CleanText.uncertaintyOffset
    rw [if_neg]
    intro hmem
    simp only [List.mem_cons, List.not_mem_nil, or_false] at hmem
    rcases hmem with h | h | h | h
    · exact H6.1 h.symm
    · exact H6.2.1 h.symm
    · exact H6.2.2.1 h.symm
    · exact H6.2.2.2 h.symm
  constructor
  · unfold CleanText.expand
    simp only [H1, hadj, hoff, List.isEmpty_cons, List.length_cons,
      List.length_nil, Bool.false_eq_true, if_false]
    norm_num
    rw [H5]
  · unfold GTE.process_extracted_text
    simp only [hGTE, List.length_cons, List.length_nil, H2]
    norm_num

/-- Witness for C2 on the citation "BGU IV 123.4-5 (AD 100)". -/
theorem claim_C2_wit :
    CleanText.expand "BGU IV 123.4-5 (AD 100)" "" "" "" =
        .ok ("BGU IV 123.4-5 (AD 100)", "BGU", "IV", predot "123.4-5") ∧
      GTE.process_extracted_text "BGU IV 123.4-5 (AD 100)" =
        .ok (some { collection := GTE.stripTrailingDotLower "BGU",
                    number := 4, identifier := predot "123.4-5",
                    lines := "" }) :=
  claim_C2_thm "BGU IV 123.4-5 (AD 100)" "" "" "" "BGU" "IV" "123.4-5"
    "(AD 100)" 4 (by decide) (by decide) (by decide) (by decide) (by decide)
    ⟨by decide, by decide, by decide, by decide⟩

/-- Counterexample for C2 as stated: on the well-formed citation
"BGU IV 123.4-5 (AD 100)" (four bracket-aware tokens, roman token 1,
dotted token 2) the parse of the expansion has lines equal to the empty
string rather than the post-dot segment "4-5"; and on
"BGU IV 123.4 [a b]" (also four bracket-aware tokens with roman token 1
and dotted token 2) the parse of the expansion is absent entirely. -/
theorem claim_C2_cex :
    (CleanText.smart_split "BGU IV 123.4-5 (AD 100)" ' ' =
        ["BGU", "IV", "123.4-5", "(AD 100)"] ∧
      CleanText.expand "BGU IV 123.4-5 (AD 100)" "" "" "" =
        .ok ("BGU IV 123.4-5 (AD 100)", "BGU", "IV", "123") ∧
      GTE.process_extracted_text "BGU IV 123.4-5 (AD 100)" =
        .ok (some { collection := "bgu", number := 4, identifier := "123",
                    lines := "" }) ∧
      ("" : String) ≠ "4-5") ∧
    (CleanText.smart_split "BGU IV 123.4 [a b]" ' ' =
        ["BGU", "IV", "123.4", "[a b]"] ∧
      fromRoman "IV" = some 4 ∧
      CleanText.expand "BGU IV 123.4 [a b]" "" "" "" =
        .ok ("BGU IV 123.4 [a b]", "BGU", "", "") ∧
      GTE.process_extracted_text "BGU IV 123.4 [a b]" = .ok none) :=
  ⟨⟨by decide, by decide, by decide, by decide⟩,
   ⟨by decide, by decide, by decide, by decide⟩⟩

/-- C7 (amended): on every list of ab elements, the XML extractor
produces, in document order, exactly one line per line-break site whose
n attribute parses as a nonzero integer (sites with a non-integer n,
and also those with n equal to zero, are skipped), each line being the
tail of the line break plus the text and tail of every intervening
sibling up to the next line-break element, trimmed; the function takes
no line range, so its output does not depend on the requested range. -/
theorem claim_C7_thm (abList : List Xml) :
    GTE.extract_greek_lines abList = GTE.greekLinesSpec abList := by
  unfold GTE.extract_greek_lines GTE.greekLinesSpec
  rw [foldl_absList]
  simp

/-- Counterexample for C7 as stated: a line-break element whose n
attribute is the integer zero produces no line, although the claim says
only non-integer n values are skipped. -/
theorem claim_C7_cex :
    GTE.extract_greek_lines [abZero] = [] ∧
      GTE.lbSitesNode abZero = [(lbZero, [])] ∧
      pyInt "0" = some 0 ∧
      GTE.lineOf lbZero [] = "abc" ∧
      ([] : List String) ≠ ["abc"] := by
  refine ⟨?_, ?_, by decide, ?_, by decide⟩
  · simp only [GTE.extract_greek_lines, GTE.lbSitesNode, GTE.lbSitesList,
      abZero, lbZero, List.foldl_cons, List.foldl_nil]
    decide
  · simp [GTE.lbSitesNode, GTE.lbSitesList, abZero, lbZero, GTE.isLbN,
      attrLookup, teiLbTag, Xml.tag, Xml.attrs, Xml.children]
  · simp [GTE.lineOf, GTE.joinSibs, lbZero, Xml.tail, pyStrip, pyStripL,
      isPyWs]

/-- C9 (amended): a citation with no dot-prefixed range list splits to
the empty list (pass-through for callers); and when the range pattern
occurs at exactly one position and the matched range list contains no
comma (an already-split single-range citation), the splitter returns
exactly the citation itself, so re-splitting it is the identity.
Re-splitting is not the identity in general: with several pattern
occurrences the substitution can rewrite the other occurrences. -/
theorem claim_C9_thm (t : String) :
    (CleanText.reSearch t.data = none → CleanText.extract t = []) ∧
      ∀ m, CleanText.reSearch t.data = some m →
        CleanText.countMatches t.data = 1 → ',' ∉ m →
        CleanText.extract t = [t] := by
  constructor
  · intro h
    unfold CleanText.extract
    rw [h]
  · intro m hs hc hnc
    unfold CleanText.extract
    rw [hs]
    dsimp only
    have hsplit : splitOnChar ',' m = [m] := splitOnChar_of_not_mem ',' m hnc
    have hstrip : pyStripL m = m := by
      obtain ⟨l', p, hp, hpm⟩ := CleanText.reSearch_some t.data m hs
      rw [← hpm]
      exact CleanText.rngMatchAt_strip l' p hp (hpm ▸ hnc)
    have hsub : CleanText.reSub m t.data = t.data :=
      CleanText.reSub_search_unique t.data.length t.data m (Nat.le_refl _)
        hs hc
    have hmk : String.mk t.data = t := by
      obtain ⟨l⟩ := t
      rfl
    simp [hsplit, hstrip, List.enum, List.enumFrom, hsub, hmk]

/-- Witness for C9: a citation without a range list passes through, and
an already-split single-range citation is returned unchanged. -/
theorem claim_C9_wit :
    CleanText.extract "no ranges here" = [] ∧
      CleanText.extract "P. OXY. 123.10-12 (AD 100-120);" =
        ["P. OXY. 123.10-12 (AD 100-120);"] :=
  ⟨(claim_C9_thm "no ranges here").1 (by decide),
   (claim_C9_thm "P. OXY. 123.10-12 (AD 100-120);").2
     ['.', '1', '0', '-', '1', '2'] (by decide) (by decide) (by decide)⟩

/-- Counterexample for C9 as stated: "A.1 B.1,4" is the single output of
the splitter on "A.1 B.2 3,4" (an already-split single-range citation),
yet splitting it again rewrites its second pattern occurrence and
returns a different citation. -/
theorem claim_C9_cex :
    CleanText.extract "A.1 B.2 3,4" = ["A.1 B.1,4"] ∧
      CleanText.extract "A.1 B.1,4" = ["A.1 B.1"] ∧
      CleanText.extract "A.1 B.1,4" ≠ ["A.1 B.1,4"] :=
  ⟨by decide, by decide, by decide⟩

/-- C1: the orchestrator deduplicates the parsed records by full field
equality and scrapes each unique record once, but it then zips the raw
citation labels with the scraped texts of the deduplicated list: on the
two-citation input msBGU, whose citations parse to the same record, only
one pair is emitted although both citations extract successfully, so the
output does not pair each raw label with the outcome of that same
citation.  The theorem holds for every admissible iteration order of the
deduplicating set and every scrape result. -/
theorem claim_C1_thm (u : List GTE.StructuredCitation)
    (fetch : GTE.StructuredCitation → Option String) (txt : String)
    (hnd : u.Nodup) (hmem : ∀ d, d ∈ u ↔ d ∈ [recBGU, recBGU])
    (hf : fetch recBGU = some txt) (hne : txt ≠ "") :
    GTE.extract msBGU =
        .ok ([recBGU, recBGU],
          ["BGU IV 123.1-2 (AD 100);", "Bgu IV 123.1-2 (AD 100);"]) ∧
      GTE.greek_text_from_text msBGU u fetch =
        .ok [("BGU IV 123.1-2 (AD 100);", txt)] := by
  have hu : u = [recBGU] := nodup_pair_eq_singleton u recBGU hnd hmem
  subst hu
  have hext : GTE.extract msBGU = .ok ([recBGU, recBGU],
      ["BGU IV 123.1-2 (AD 100);", "Bgu IV 123.1-2 (AD 100);"]) := by
    decide
  refine ⟨hext, ?_⟩
  unfold GTE.greek_text_from_text
  rw [hext]
  simp [hf, hne]

/-- Witness for C1 with the singleton deduplicated list and a constant
scrape result. -/
theorem claim_C1_wit :
    GTE.greek_text_from_text msBGU [recBGU] (fun _ => some "x") =
      .ok [("BGU IV 123.1-2 (AD 100);", "x")] :=
  (claim_C1_thm [recBGU] (fun _ => some "x") "x" (by decide)
    (by intro d; simp) rfl (by decide)).2
